import Mathlib

/-!
Verification development for the instruction-scheduling and barrier-insertion
core of the loopy kernel compiler (`loopy/schedule.py`), shallowly embedded in
Lean 4.

Conventions of the embedding:
* Python `set`s of strings are represented as `List String` with membership
  semantics; iteration orders that Python leaves unspecified (set iteration)
  are determinized by the list order in which elements were produced.
* The recursive generator `generate_loop_schedules_internal` is embedded as a
  fuel-indexed function returning the list of yielded schedules together with
  a flag recording whether the generator terminated abnormally (a Python
  exception, or fuel exhaustion in the embedding).
* Pieces of the kernel data model whose defining code is outside the sources
  (`loopy/kernel/data.py`, `loopy/kernel/tools.py`, `loopy/symbolic.py`) are
  modelled from the spec as explicit fields/enumerations; each such place is
  marked in its doc comment.
-/

namespace Loopy

/-- Barrier kinds, `"local"` or `"global"` (`Barrier.kind` in schedule.py). -/
inductive BKind where
  | local
  | global
deriving DecidableEq, Repr

/-- Modelled from the spec: iname hardware tags (`loopy/kernel/data.py` is not
in the sources).  §3 of the spec classifies inames as hardware-parallel
(group/local), ILP, vectorize, or sequential-like (sequential/unroll/none);
the scheduler only branches on those four classes (`IlpBaseTag`,
`VectorizeTag`, `ParallelTag` instance checks). -/
inductive Tag where
  | seq
  | hwpar
  | ilp
  | vec
deriving DecidableEq, Repr

/-- Schedule items (`EnterLoop`, `LeaveLoop`, `RunInstruction`, `Barrier`). -/
inductive SchedItem where
  | enter (iname : String)
  | leave (iname : String)
  | run (insn_id : String)
  | barrier (comment : String) (kind : BKind)
deriving DecidableEq, Repr

abbrev Sched := List SchedItem

/-- An instruction.  `id`, `insn_deps`, `priority` and `boostable_into` are the
fields of `InstructionBase` the scheduler reads.  `inames` is the value of the
kernel query `kernel.insn_inames(insn)`, and `reads`/`writes` the values of
`insn.read_dependency_names()` / `insn.assignee_var_names()`; those three are
computed by kernel-model code outside the sources (`loopy/kernel/tools.py`,
`loopy/kernel/data.py`) and, following spec §6, are modelled as data provided
by the kernel-model collaborator. -/
structure Instruction where
  id : String
  insn_deps : List String
  priority : Int
  boostable_into : List String
  inames : List String
  reads : List String
  writes : List String
deriving DecidableEq, Repr

/-- A temporary variable: its name and its `is_local` flag (the only fields
`local_var_names` and `writer_map`-related code consult). -/
structure TempVar where
  name : String
  is_local : Bool
deriving DecidableEq, Repr

/-- An iteration domain, reduced to the two queries the scheduler makes of an
`islpy.BasicSet`: `get_var_names(dim_type.set)` and
`get_var_names(dim_type.param)`. -/
structure Domain where
  set_vars : List String
  param_vars : List String
deriving DecidableEq, Repr

/-- `kernel_state`: INITIAL / PREPROCESSED / SCHEDULED. -/
inductive KState where
  | initial
  | preprocessed
  | scheduled
deriving DecidableEq, Repr

/-- The kernel, reduced to the fields the scheduling core reads.
`global_arg_names` stands for the names of the kernel's `GlobalArg` arguments
(`global_var_names`); the argument class hierarchy lives in the out-of-source
`loopy/kernel/data.py`, so only the resulting name set is modelled. -/
structure Kernel where
  instructions : List Instruction
  domains : List Domain
  iname_to_tag : List (String × Tag)
  loop_priority : List String
  temporary_variables : List TempVar
  global_arg_names : List String
  state : KState
  schedule : Sched
deriving DecidableEq, Repr

/-! ### Set operations on `List String` (Python `set` semantics) -/

/-- Boolean subset test (`<=` on Python sets). -/
def subB (a b : List String) : Bool := a.all (fun x => x ∈ b)

/-- Boolean set equality (`==` on Python sets). -/
def seqB (a b : List String) : Bool := subB a b && subB b a

/-- Set difference (`-` on Python sets). -/
def sdiff (a b : List String) : List String := a.filter (fun x => x ∉ b)

/-- Set intersection (`&` on Python sets). -/
def sinter (a b : List String) : List String := a.filter (fun x => x ∈ b)

/-- Strict subset (`<` on Python sets). -/
def ssubsetB (a b : List String) : Bool := subB a b && !(subB b a)

/-! ### Derived kernel queries (`loopy/kernel/__init__.py`) -/

/-- `set(insn.id for insn in kernel.instructions)` (with the list
determinization of set order; duplicates removed as a set would). -/
def allIds (k : Kernel) : List String := (k.instructions.map (fun i => i.id)).dedup

/-- `kernel.id_to_insn[i]`: the `dict((insn.id, insn) ...)` lookup; for
duplicate ids the last instruction wins, as in a Python dict comprehension.
A missing id returns a placeholder instruction carrying that id (the Python
`KeyError` cannot arise for the ids the scheduler looks up). -/
def idToInsn (k : Kernel) (i : String) : Instruction :=
  ((k.instructions.filter (fun insn => insn.id = i)).getLast?).getD
    { id := i, insn_deps := [], priority := 0, boostable_into := [],
      inames := [], reads := [], writes := [] }

/-- `kernel.all_inames()`: union of the set-dim variables of all domains. -/
def allInames (k : Kernel) : List String :=
  (k.domains.foldl (fun acc d => acc ++ d.set_vars) []).dedup

/-- `kernel.iname_to_tag.get(iname)`: `Tag.seq` models the `None` /
sequential / unroll outcomes, which the scheduler treats alike. -/
def tagOf (k : Kernel) (i : String) : Tag :=
  (((k.iname_to_tag.filter (fun p => p.1 = i)).getLast?).map (fun p => p.2)).getD Tag.seq

/-- `kernel.iname_to_insns()[iname]`: ids of instructions whose
`insn_inames` contain `iname`. -/
def inameToInsns (k : Kernel) (iname : String) : List String :=
  (k.instructions.filter (fun insn => iname ∈ insn.inames)).map (fun insn => insn.id)

/-- `kernel.writer_map()[var]`: ids of instructions that write `var`
(via `assignees_and_indices`, whose variable names are the `writes` field). -/
def writerMap (k : Kernel) (v : String) : List String :=
  (k.instructions.filter (fun insn => v ∈ insn.writes)).map (fun insn => insn.id)

/-- `kernel.local_var_names()`: names of temporaries with `is_local`. -/
def localVarNames (k : Kernel) : List String :=
  (k.temporary_variables.filter (fun tv => tv.is_local)).map (fun tv => tv.name)

/-- `kernel.global_var_names()`: names of the `GlobalArg` arguments. -/
def globalVarNames (k : Kernel) : List String := k.global_arg_names

/-- Names of all temporary variables (`set(kernel.temporary_variables)`). -/
def tempNames (k : Kernel) : List String := k.temporary_variables.map (fun tv => tv.name)

/-- One unfolding step of `recursive_insn_dep_map`: direct dependencies plus
the recursive dependencies of those, with the recursion depth bounded by
`fuel`.  The Python function memoizes an unbounded recursion that terminates
exactly on dependency DAGs; on a DAG every dependency chain has length at most
the number of instructions, so `recDepsAux` with fuel
`k.instructions.length` computes the same closure. -/
def recDepsAux (k : Kernel) : Nat → String → List String
  | 0, _ => []
  | fuel+1, i =>
      let ds := (idToInsn k i).insn_deps
      (ds ++ ds.foldl (fun acc d => acc ++ recDepsAux k fuel d) []).dedup

/-- `kernel.recursive_insn_dep_map()[i]`: all instruction ids `i` directly or
indirectly depends on. -/
def recDeps (k : Kernel) (i : String) : List String :=
  recDepsAux k (k.instructions.length + 1) i

/-- `kernel.get_home_domain_index(iname)` resolved to the domain itself: the
dict comprehension in `_get_home_domain_map` lets the last domain containing
`iname` as a set variable win. -/
def homeDomain (k : Kernel) (iname : String) : Option Domain :=
  (k.domains.filter (fun d => iname ∈ d.set_vars)).getLast?

/-! ### Loop-nest map (`loop_nest_map`, schedule.py lines 174-212) -/

/-- `loop_nest_map(kernel)[inner]`: inames that must be nested around
`inner`.  Source (a): every other non-ILP-tagged iname whose instruction set
strictly contains `inner`'s.  Source (b): for every domain having `inner` as a
set variable, every parameter of that domain that is itself an iname. -/
def loopNestMap (k : Kernel) (inner : String) : List String :=
  let part_a := (allInames k).filter (fun outer =>
    outer ≠ inner && tagOf k outer ≠ Tag.ilp
      && ssubsetB (inameToInsns k inner) (inameToInsns k outer))
  let part_b := (k.domains.filter (fun d => inner ∈ d.set_vars)).foldl
    (fun acc d => acc ++ d.param_vars.filter (fun p => p ∈ allInames k)) []
  part_a ++ part_b

/-! ### Scheduler state (`SchedulerState`, built in `generate_loop_schedules`) -/

/-- `SchedulerState`: the kernel plus the iname classifications computed at
the top of `generate_loop_schedules` (lines 1048-1068).  The loop-nest map is
recomputed through `loopNestMap` rather than stored. -/
structure SState where
  kernel : Kernel
  breakable_inames : List String
  ilp_inames : List String
  vec_inames : List String
  parallel_inames : List String
deriving Repr

/-- The construction of the scheduler state in `generate_loop_schedules`:
`ilp_inames` and `vec_inames` from the tags, `parallel_inames` the
`ParallelTag`-tagged inames minus ilp and vec inames — which leaves exactly
the hardware-parallel (`Tag.hwpar`) ones. -/
def mkSchedulerState (k : Kernel) : SState :=
  let ilp := (allInames k).filter (fun i => tagOf k i = Tag.ilp)
  let vec := (allInames k).filter (fun i => tagOf k i = Tag.vec)
  { kernel := k
    breakable_inames := ilp
    ilp_inames := ilp
    vec_inames := vec
    parallel_inames := (allInames k).filter (fun i => tagOf k i = Tag.hwpar) }

end Loopy

namespace Loopy

/-! ### Schedule utilities used by the search -/

/-- Ids of the `RunInstruction` items of a schedule (`scheduled_insn_ids`). -/
def runIds (s : Sched) : List String :=
  s.filterMap (fun it => match it with | SchedItem.run i => some i | _ => none)

/-- The active iname stack of a partial schedule: `EnterLoop` pushes,
`LeaveLoop` pops (schedule.py lines 322-336; the innermost loop is the last
element). -/
def activeInames (s : Sched) : List String :=
  s.foldl (fun acc it => match it with
    | SchedItem.enter i => acc ++ [i]
    | SchedItem.leave _ => acc.dropLast
    | _ => acc) []

/-- Stable insertion for a descending sort: `x` (originally earlier) goes in
front of every element of equal key, matching Python's stable
`sorted(..., reverse=True)`. -/
def insertDescBy {α : Type} (key : α → Int) (x : α) : List α → List α
  | [] => [x]
  | y :: ys => if key y ≤ key x then x :: y :: ys else y :: insertDescBy key x ys

/-- Stable descending sort by an integer key. -/
def sortDescBy {α : Type} (key : α → Int) : List α → List α
  | [] => []
  | x :: xs => insertDescBy key x (sortDescBy key xs)

/-- The per-instruction scan of step 3 (schedule.py lines 380-421) over the
priority-sorted unscheduled instructions.  Returns `reachable_insn_ids`
(dependency-satisfied instructions with `have ⊆ want` but `want ≠ have`) and
the first instruction that `is_ready` (dependencies scheduled and
`want == have`, with `have` reduced by `boostable_into` when boosting is
allowed). -/
def scanReady (parallel scheduled active : List String) (boost : Bool) :
    List Instruction → List String × Option Instruction
  | [] => ([], none)
  | insn :: rest =>
      let (reach, fr) := scanReady parallel scheduled active boost rest
      if !(subB insn.insn_deps scheduled) then (reach, fr)
      else
        let want := sdiff insn.inames parallel
        let hav0 := sdiff active parallel
        let hav := if boost then sdiff hav0 insn.boostable_into else hav0
        if seqB want hav then (reach, some insn)
        else ((if subB hav want then insn.id :: reach else reach), fr)

/-- The backwards scan deciding whether an instruction has been run since the
matching `EnterLoop` (schedule.py lines 467-481), on the reversed schedule. -/
def scanLeaveRev : Sched → Nat → Bool → Bool
  | [], _, _ => false
  | it :: rest, ign, seen =>
      match it with
      | SchedItem.run _ => scanLeaveRev rest ign true
      | SchedItem.leave _ => scanLeaveRev rest (ign+1) seen
      | SchedItem.enter _ => if ign = 0 then seen else scanLeaveRev rest (ign-1) seen
      | SchedItem.barrier _ _ => scanLeaveRev rest ign seen

/-- Step 4's `can_leave` check for the innermost loop `last` (lines 445-482):
either the iname is breakable (ILP) or no unscheduled instruction still needs
it, and some instruction has run since the matching `EnterLoop`. -/
def canLeaveLast (st : SState) (sched : Sched) (unschedInsns : List Instruction)
    (last : String) : Bool :=
  (last ∈ st.breakable_inames || unschedInsns.all (fun insn => last ∉ insn.inames))
    && scanLeaveRev sched.reverse 0 false

/-- The `data_dep_written` loop (lines 546-554) over the home-domain
parameters that are temporary variables: each is destructured as
`writer_insn, = kernel.writer_map()[domain_par]`, which raises unless the
variable has exactly one writer (modelled as `.error`). -/
def dataDepWritten (k : Kernel) (scheduled : List String) : List String → Except Unit Bool
  | [] => Except.ok true
  | p :: rest =>
      match writerMap k p with
      | [w] => if w ∈ scheduled then dataDepWritten k scheduled rest else Except.ok false
      | _ => Except.error ()

/-- Step 5's usefulness of entering `iname` (lines 563-575): the maximum
priority among reachable instructions whose `insn_inames ∪ boostable_into`
covers the hypothetically active loops. -/
def usefulnessOf (k : Kernel) (active reachable : List String) (iname : String) : Option Int :=
  reachable.foldl (fun acc insn_id =>
    let insn := idToInsn k insn_id
    if subB (active ++ [iname]) (insn.inames ++ insn.boostable_into) then
      match acc with
      | none => some insn.priority
      | some u => some (max u insn.priority)
    else acc) none

/-- The admissibility-and-usefulness filter of step 5 (lines 521-584) over the
needed inames: skip an iname whose loop-nest prerequisites are not accessible
or that is not useful; propagate the `ValueError` of `dataDepWritten`. -/
def computeUseful (st : SState) (scheduled active reachable : List String) :
    List String → Except Unit (List (String × Int))
  | [] => Except.ok []
  | iname :: rest =>
      let k := st.kernel
      if !(subB (loopNestMap k iname) (active ++ st.parallel_inames)) then
        computeUseful st scheduled active reachable rest
      else
        match homeDomain k iname with
        | none => Except.error ()
        | some dom =>
          match dataDepWritten k scheduled (dom.param_vars.filter (fun p => p ∈ tempNames k)) with
          | Except.error _ => Except.error ()
          | Except.ok false => computeUseful st scheduled active reachable rest
          | Except.ok true =>
            match usefulnessOf k active reachable iname with
            | none => computeUseful st scheduled active reachable rest
            | some u =>
                (computeUseful st scheduled active reachable rest).map
                  (fun m => (iname, u) :: m)

/-- `iname_to_usefulness.get(iname, 0)`. -/
def usefulnessGet (m : List (String × Int)) (i : String) : Int :=
  (((m.filter (fun p => p.1 = i)).head?).map (fun p => p.2)).getD 0

/-- The priority-tier construction of step 5 (lines 586-628): singleton tiers
for loop-priority inames that are useful and desired, a tier of the remaining
useful non-ILP/non-vec inames, then singleton tiers for useful ILP inames and
finally for useful vectorize inames. -/
def buildTiers (st : SState) (lp : List String) (usefulMap : List (String × Int)) :
    List (List String) :=
  let usefulSet := usefulMap.map (fun p => p.1)
  let uad := usefulSet.filter (fun i => i ∈ lp)
  let base :=
    if uad ≠ [] then
      (lp.filter (fun i => i ∈ uad && i ∉ st.ilp_inames && i ∉ st.vec_inames)).map
          (fun i => [i])
        ++ [usefulSet.filter (fun i => i ∉ lp && i ∉ st.ilp_inames && i ∉ st.vec_inames)]
    else
      [usefulSet.filter (fun i => i ∉ st.ilp_inames && i ∉ st.vec_inames)]
  base ++ (st.ilp_inames.filter (fun i => i ∈ usefulSet)).map (fun i => [i])
       ++ (st.vec_inames.filter (fun i => i ∈ usefulSet)).map (fun i => [i])

/-! ### The search itself (`generate_loop_schedules_internal`) -/

/-- The result of running the generator: the list of yielded schedules, and a
flag that is `true` when the generator terminated abnormally (a propagated
Python exception — or exhausted fuel in this embedding). -/
abbrev SearchRes := List Sched × Bool

/-- Sequencing of generator runs: if the first terminated abnormally the
second never runs; otherwise their yields are concatenated. -/
def seqSearch (r1 r2 : SearchRes) : SearchRes :=
  if r1.2 then r1 else (r1.1 ++ r2.1, r2.2)

/-- One tier of step 5 (lines 638-648): recurse per candidate iname with
`EnterLoop` appended and `allow_insn` reset to false, concatenating yields,
an exception cutting the tier short. -/
def tryTier (rec : Sched → Option Bool → Bool → SearchRes) (sched : Sched)
    (recAB : Option Bool) : List String → SearchRes
  | [] => ([], false)
  | i :: rest =>
      seqSearch (rec (sched ++ [SchedItem.enter i]) recAB false)
        (tryTier rec sched recAB rest)

/-- The tier loop of step 5 (lines 635-651): try tiers in order, inames within
a tier sorted by descending usefulness; stop at the first tier that yields (or
raises); fall through to `fb` when no tier is viable. -/
def tryTiers (rec : Sched → Option Bool → Bool → SearchRes) (sched : Sched)
    (recAB : Option Bool) (um : List (String × Int)) (fb : SearchRes) :
    List (List String) → SearchRes
  | [] => fb
  | tier :: rest =>
      let r := tryTier rec sched recAB (sortDescBy (usefulnessGet um) tier)
      if r.2 then r else if r.1 ≠ [] then r
      else tryTiers rec sched recAB um fb rest

/-- Terminal success and dead-end escalation (lines 659-684): yield the
schedule when no loop is active and nothing is unscheduled; otherwise retry
with `allow_insn=True` when `allow_insn` was false, and additionally retry
with `allow_boost=True` when `allow_boost` is `False` (dead-end logging is
diagnostics only and not modelled). -/
def searchFinal (rec : Sched → Option Bool → Bool → SearchRes) (sched : Sched)
    (ab : Option Bool) (ai : Bool) (active unscheduledIds : List String) : SearchRes :=
  if active = [] && unscheduledIds = [] then ([sched], false)
  else
    seqSearch (if !ai then rec sched ab true else ([], false))
      (if ab = some false then rec sched (some true) ai else ([], false))

/-- The inames still needed by unscheduled instructions, minus parallel and
active inames (lines 499-508). -/
def neededOf (st : SState) (unschedInsns : List Instruction)
    (active : List String) : List String :=
  sdiff (sdiff ((unschedInsns.foldl
    (fun acc insn => acc ++ insn.inames) []).dedup) st.parallel_inames) active

/-- Step 5 (lines 498-653): needed inames, usefulness, tiers; falls through to
`fb` when no loop can be entered; an error in the usefulness computation
aborts the call with no yields. -/
def searchEnter (st : SState) (lp : List String)
    (rec : Sched → Option Bool → Bool → SearchRes) (sched : Sched)
    (recAB : Option Bool) (scheduled active reachable : List String)
    (unschedInsns : List Instruction) (fb : SearchRes) : SearchRes :=
  if neededOf st unschedInsns active = [] then fb
  else
    match computeUseful st scheduled active reachable
        (neededOf st unschedInsns active) with
    | Except.error _ => ([], true)
    | Except.ok um => tryTiers rec sched recAB um fb (buildTiers st lp um)

/-- `unscheduled_insn_ids` of a call. -/
def unscheduledIdsOf (k : Kernel) (sched : Sched) : List String :=
  (allIds k).filter (fun i => i ∉ runIds sched)

/-- The unscheduled instructions, looked up through `id_to_insn`. -/
def unschedInsnsOf (k : Kernel) (sched : Sched) : List Instruction :=
  (unscheduledIdsOf k sched).map (idToInsn k)

/-- `rec_allow_boost` (lines 315-318). -/
def recABOf (ab : Option Bool) : Option Bool :=
  if ab = none then none else some false

/-- The step-3 scan of a call: priority-sorted unscheduled instructions fed
to `scanReady`, with boosting active when `allow_boost is True`. -/
def scanOf (st : SState) (sched : Sched) (ab : Option Bool) :
    List String × Option Instruction :=
  scanReady st.parallel_inames (runIds sched) (activeInames sched) (ab = some true)
    (sortDescBy (fun insn => insn.priority) (unschedInsnsOf st.kernel sched))

/-- Step 4's decision: the innermost loop's iname when it may be left now. -/
def leaveOkOf (st : SState) (sched : Sched) : Option String :=
  match (activeInames sched).getLast? with
  | none => none
  | some last =>
      if canLeaveLast st sched (unschedInsnsOf st.kernel sched) last then some last
      else none

/-- Steps 4-7 of a call, reached when step 3 did not commit to running an
instruction. -/
def searchRest (st : SState) (lp : List String)
    (rec : Sched → Option Bool → Bool → SearchRes) (sched : Sched)
    (ab : Option Bool) (ai : Bool) : SearchRes :=
  match leaveOkOf st sched with
  | some last => rec (sched ++ [SchedItem.leave last]) (recABOf ab) ai
  | none =>
      searchEnter st lp rec sched (recABOf ab) (runIds sched) (activeInames sched)
        (scanOf st sched ab).1 (unschedInsnsOf st.kernel sched)
        (searchFinal rec sched ab ai (activeInames sched)
          (unscheduledIdsOf st.kernel sched))

/-- `generate_loop_schedules_internal(sched_state, loop_priority, schedule,
allow_boost, allow_insn)`, fuel-indexed.  Fuel exhaustion is reported as an
abnormal termination with no yields; for fuel large enough the function
computes exactly the Python generator's run. -/
def search (st : SState) (lp : List String) :
    Nat → Sched → Option Bool → Bool → SearchRes
  | 0, _, _, _ => ([], true)
  | Nat.succ fuel, sched, ab, ai =>
      match (if ai then (scanOf st sched ab).2 else none) with
      | some insn =>
          search st lp fuel (sched ++ [SchedItem.run insn.id]) (recABOf ab) true
      | none => searchRest st lp (search st lp fuel) sched ab ai

end Loopy

namespace Loopy

/-! ### Barrier insertion (`insert_barriers` and helpers, lines 691-1026) -/

/-- `DependencyRecord`. -/
structure DepRec where
  source : String
  target : String
  variable_name : String
  var_kind : BKind
  is_forward : Bool
deriving DecidableEq, Repr

/-- `barrier_kind_more_or_equally_global`. -/
def barrierKindMoreOrEquallyGlobal (k1 k2 : BKind) : Bool :=
  k1 = k2 || (k1 = BKind.global && k2 = BKind.local)

/-- `get_barrier_needing_dependency(kernel, target, source, reverse, var_kind)`
(lines 727-794): a dependency record when a transitive `insn_deps` relation
holds between the two instructions and they share a read-after-write,
write-after-read or write-after-write pair on a variable of the requested
kind (write-after-write is skipped when source and target coincide).  The
choice among several hazard variables, which Python leaves to set iteration
order, is determinized as raw-then-war, then waw, in read/write list order. -/
def getBarrierNeedingDependency (k : Kernel) (target source : String)
    (reverse : Bool) (kind : BKind) : Option DepRec :=
  let src := if reverse then target else source
  let tgt := if reverse then source else target
  if src ∉ recDeps k tgt then none
  else
    let relevant := match kind with
      | BKind.local => localVarNames k
      | BKind.global => globalVarNames k
    let ti := idToInsn k tgt
    let si := idToInsn k src
    let tgtWrite := sinter ti.writes relevant
    let tgtRead := sinter ti.reads relevant
    let srcWrite := sinter si.writes relevant
    let srcRead := sinter si.reads relevant
    let waw := sinter tgtWrite srcWrite
    let raw := sinter tgtRead srcWrite
    let war := sinter tgtWrite srcRead
    match (raw ++ war).head? with
    | some v => some ⟨src, tgt, v, kind, !reverse⟩
    | none =>
        if src = tgt then none
        else
          match waw.head? with
          | some v => some ⟨src, tgt, v, kind, !reverse⟩
          | none => none

/-- Helper for `get_tail_starting_at_last_barrier`: walks the reversed
schedule collecting run ids until a barrier of the same or more global kind. -/
def getTailAux (kind : BKind) : Sched → List String
  | [] => []
  | it :: rest =>
      match it with
      | SchedItem.barrier _ bk =>
          if barrierKindMoreOrEquallyGlobal bk kind then [] else getTailAux kind rest
      | SchedItem.run i => i :: getTailAux kind rest
      | _ => getTailAux kind rest

/-- `get_tail_starting_at_last_barrier(schedule, kind)` (lines 801-819). -/
def getTailStartingAtLastBarrier (sched : Sched) (kind : BKind) : List String :=
  (getTailAux kind sched.reverse).reverse

/-- `insn_ids_from_schedule(schedule)` (lines 822-835): run ids collected from
the reversed schedule (so returned in reverse schedule order, as in Python). -/
def insnIdsFromSchedule (sched : Sched) : List String :=
  (runIds sched).reverse

/-- `gather_schedule_subloop` after the leading `EnterLoop`: splits the items
following it into the loop body, the matching `LeaveLoop` item, and the rest
of the schedule; `none` models the `assert False` on unbalanced schedules. -/
def splitSubloop : Sched → Nat → Sched → Option (Sched × SchedItem × Sched)
  | [], _, _ => none
  | it :: rest, depth, acc =>
      match it with
      | SchedItem.enter i => splitSubloop rest (depth+1) (acc ++ [SchedItem.enter i])
      | SchedItem.leave i =>
          if depth = 0 then some (acc, SchedItem.leave i, rest)
          else splitSubloop rest (depth-1) (acc ++ [SchedItem.leave i])
      | x => splitSubloop rest depth (acc ++ [x])

/-- The comment string `issue_barrier` builds for a dependency record. -/
def mkComment (dep : DepRec) : String :=
  if dep.is_forward then
    "for " ++ dep.variable_name ++ " (" ++ dep.target ++ " depends on "
      ++ dep.source ++ ")"
  else
    "for " ++ dep.variable_name ++ " (" ++ dep.source ++ " rev-depends on "
      ++ dep.target ++ ")"

/-- The `Barrier` item `issue_barrier` appends (kind is the record's
`var_kind`). -/
def mkBarrier (dep : DepRec) : SchedItem :=
  SchedItem.barrier (mkComment dep) dep.var_kind

/-- The inner loop over the candidate search set at a `RunInstruction` or in
the pre-loop check: the first candidate with a barrier-needing dependency. -/
def findHazard (k : Kernel) (target : String) (srcs : List String)
    (reverse : Bool) (kind : BKind) : Option DepRec :=
  srcs.findSome? (fun c => getBarrierNeedingDependency k target c reverse kind)

/-- Is this item a barrier of the requested or a more global kind? -/
def isKindBarrier (kind : BKind) (it : SchedItem) : Bool :=
  match it with
  | SchedItem.barrier _ bk => barrierKindMoreOrEquallyGlobal bk kind
  | _ => false

/-- The "check if a barrier is needed before the loop" loop of the
`EnterLoop` case (lines 951-966): for each leading loop-body instruction, in
the order `insn_ids_from_schedule` produces, search the current candidates
(restricted to transitive dependency predecessors for forward passes) for a
hazard and issue a barrier on the first one found, which also clears the
candidates.  Returns the barriers to emit before the loop, the remaining
candidates, and the past-first-barrier flag. -/
def headCheck (k : Kernel) (reverse : Bool) (kind : BKind) :
    List String → Sched → List String → Bool → (Sched × List String × Bool)
  | [], acc, cand, past => (acc, cand, past)
  | insn_id :: rest, acc, cand, past =>
      let searchSet := if reverse then cand else sinter cand (recDeps k insn_id)
      match findHazard k insn_id searchSet reverse kind with
      | some dep => headCheck k reverse kind rest (acc ++ [mkBarrier dep]) [] true
      | none => headCheck k reverse kind rest acc cand past

/-- The index of the last barrier-of-kind in a loop body
(`last_barrier_index`). -/
def lastKindBarrierIdx (kind : BKind) (s : Sched) : Option Nat :=
  (s.reverse.findIdx? (isKindBarrier kind)).map (fun j => s.length - 1 - j)

/-- The main walk of `insert_barriers` (lines 913-1024), with the state
`(result, candidates, past_first_barrier)` made explicit and the recursive
calls for nested loops supplied through `recIB`.  `none` models a propagated
exception (`ValueError` on a stray `LeaveLoop`, the `assert` in
`gather_schedule_subloop`) or fuel exhaustion. -/
def ibGo (k : Kernel) (reverse : Bool) (kind : BKind)
    (recIB : Sched → Bool → Option Sched) :
    Nat → Sched → Sched → List String → Bool → Option Sched
  | 0, _, _, _, _ => none
  | _+1, [], acc, _, _ => some acc
  | n+1, it :: rest, acc, cand, past =>
      match it with
      | SchedItem.enter i =>
          match splitSubloop rest 0 [] with
          | none => none
          | some (body, lv, after) =>
              match recIB body false with
              | none => none
              | some sub1 =>
                match recIB sub1 true with
                | none => none
                | some sub2 =>
                    let hasBar := sub2.any (isKindBarrier kind)
                    let firstIdx := sub2.findIdx? (isKindBarrier kind)
                    let lastIdx := lastKindBarrierIdx kind sub2
                    let cand1 := if hasBar then [] else cand
                    let past1 := if hasBar then true else past
                    let headIds :=
                      insnIdsFromSchedule (sub2.take (firstIdx.getD sub2.length))
                    let hc := headCheck k reverse kind headIds [] cand1 past1
                    let tailIds :=
                      match lastIdx with
                      | none => insnIdsFromSchedule sub2
                      | some m => insnIdsFromSchedule (sub2.drop (m+1))
                    let cand3 := hc.2.1 ++ tailIds.filter (fun x => x ∉ hc.2.1)
                    let acc2 := acc ++ hc.1 ++ [SchedItem.enter i] ++ sub2 ++ [lv]
                    if hc.2.2 && reverse then some (acc2 ++ after)
                    else ibGo k reverse kind recIB n after acc2 cand3 hc.2.2
      | SchedItem.barrier c bk =>
          let isK := barrierKindMoreOrEquallyGlobal bk kind
          let cand2 := if isK then [] else cand
          let past2 := if isK then true else past
          let acc2 := acc ++ [SchedItem.barrier c bk]
          if past2 && reverse then some (acc2 ++ rest)
          else ibGo k reverse kind recIB n rest acc2 cand2 past2
      | SchedItem.run insn_id =>
          let searchSet := if reverse then cand else sinter cand (recDeps k insn_id)
          match findHazard k insn_id searchSet reverse kind with
          | some dep =>
              let acc2 := acc ++ [mkBarrier dep, SchedItem.run insn_id]
              if reverse then some (acc2 ++ rest)
              else ibGo k reverse kind recIB n rest acc2 [insn_id] true
          | none =>
              let acc2 := acc ++ [SchedItem.run insn_id]
              let cand2 := if insn_id ∈ cand then cand else cand ++ [insn_id]
              if past && reverse then some (acc2 ++ rest)
              else ibGo k reverse kind recIB n rest acc2 cand2 past
      | SchedItem.leave _ => none

/-- `insert_barriers(kernel, schedule, reverse, kind, level)`, fuel-indexed
over the loop-nesting recursion.  At level 0 a reverse pass returns the
schedule unchanged; otherwise candidates start from the tail after the last
barrier (reverse) or empty (forward) and the schedule is walked by `ibGo`. -/
def insertBarriers (k : Kernel) : Nat → Sched → Bool → BKind → Nat → Option Sched
  | 0, _, _, _, _ => none
  | Nat.succ fuel, schedule, reverse, kind, level =>
      if level = 0 && reverse then some schedule
      else
        let cand0 := if reverse then getTailStartingAtLastBarrier schedule kind else []
        ibGo k reverse kind (fun s r => insertBarriers k fuel s r kind (level+1))
          (schedule.length + 1) schedule [] cand0 false

/-! ### Main scheduling entry point (`generate_loop_schedules`,
`get_one_scheduled_kernel`, lines 1033-1185) -/

/-- The distinguishable abnormal outcomes of the entry point. -/
inductive GlErr where
  | notPreprocessed
  | checkFailed
  | internalError
  | noSchedules
deriving DecidableEq, Repr

/-- `pre_schedule_checks`, restricted to the checks expressible over this
data model: `check_insn_attributes` (instruction dependencies must be known
ids) and `check_loop_priority_inames_known`.  The remaining checks
(temporary shapes, hardware axes, write races, bounds, write destinations)
consult expression and polyhedral data that this scheduling-core model does
not carry (spec §1 declares them out of scope), so they cannot fire for
kernels representable here. -/
def preScheduleChecksOk (k : Kernel) : Bool :=
  k.instructions.all (fun i => subB i.insn_deps (allIds k))
    && k.loop_priority.all (fun i => i ∈ allInames k)

/-- The per-yield post-processing of the entry point (lines 1085-1091):
insert local barriers (the global pass is commented out in the source) and
attach the schedule to a copy of the kernel in SCHEDULED state. -/
def attachOne (k : Kernel) (s : Sched) : Option Kernel :=
  (insertBarriers k (s.length + 1) s false BKind.local 0).map
    (fun s2 => { k with schedule := s2, state := KState.scheduled })

/-- Post-process every yielded schedule in order; a failure (a propagated
exception) keeps the kernels already yielded and stops. -/
def attachAll (k : Kernel) : List Sched → List Kernel × Bool
  | [] => ([], false)
  | s :: rest =>
      match attachOne k s with
      | none => ([], true)
      | some k2 =>
          let r := attachAll k rest
          (k2 :: r.1, r.2)

/-- The second half of the entry point's generator loop: the default-boost
search, consulted only when the no-boost search yielded nothing, followed by
the `RuntimeError("no valid schedules found")` when it too comes up empty. -/
def entrySecondSearch (k : Kernel) (fuel : Nat) : List Kernel × Option GlErr :=
  if (attachAll k (search (mkSchedulerState k) k.loop_priority fuel []
        (some false) false).1).2
      || (search (mkSchedulerState k) k.loop_priority fuel [] (some false) false).2 then
    ((attachAll k (search (mkSchedulerState k) k.loop_priority fuel []
        (some false) false).1).1, some GlErr.internalError)
  else if (attachAll k (search (mkSchedulerState k) k.loop_priority fuel []
        (some false) false).1).1 = [] then
    ([], some GlErr.noSchedules)
  else
    ((attachAll k (search (mkSchedulerState k) k.loop_priority fuel []
        (some false) false).1).1, none)

/-- `generate_loop_schedules(kernel)` (lines 1033-1127): reject kernels that
are not PREPROCESSED, run the pre-schedule checks, then run the
no-boost (`allow_boost=None`) search and, only if it yielded nothing, the
default search; post-process each yield; raise when no schedule was found.
The result is the list of yielded scheduled kernels plus the generator's
abnormal outcome, if any. -/
def generate_loop_schedules (k : Kernel) (fuel : Nat) : List Kernel × Option GlErr :=
  if k.state ≠ KState.preprocessed then ([], some GlErr.notPreprocessed)
  else if !(preScheduleChecksOk k) then ([], some GlErr.checkFailed)
  else if (attachAll k (search (mkSchedulerState k) k.loop_priority fuel []
        none false).1).2
      || (search (mkSchedulerState k) k.loop_priority fuel [] none false).2 then
    ((attachAll k (search (mkSchedulerState k) k.loop_priority fuel []
        none false).1).1, some GlErr.internalError)
  else if (attachAll k (search (mkSchedulerState k) k.loop_priority fuel []
        none false).1).1 ≠ [] then
    ((attachAll k (search (mkSchedulerState k) k.loop_priority fuel []
        none false).1).1, none)
  else entrySecondSearch k fuel

/-- The consuming loop of `get_one_scheduled_kernel` (lines 1161-1170): pull
at most two results; the first becomes the result; a second marks the
outcome ambiguous.  An abnormal generator outcome is observed only if fewer
than two results were yielded before it. -/
def consumeGen (l : List Kernel) (err : Option GlErr) :
    Except GlErr (Option Kernel × Bool) :=
  match l with
  | [] =>
      match err with
      | some e => Except.error e
      | none => Except.ok (none, false)
  | [x] =>
      match err with
      | some e => Except.error e
      | none => Except.ok (some x, false)
  | x :: _ :: _ => Except.ok (some x, true)

/-- `get_one_scheduled_kernel(kernel)` on a cache miss (the persistent
schedule cache is process-global state outside this model): the chosen
kernel and the ambiguity flag (which Python surfaces as a non-fatal
warning). -/
def get_one_scheduled_kernel (k : Kernel) (fuel : Nat) :
    Except GlErr (Option Kernel × Bool) :=
  let r := generate_loop_schedules k fuel
  consumeGen r.1 r.2

end Loopy

namespace Loopy

/-! ### Basic lemmas about the set operations and schedule observers -/

theorem mem_sdiff {a b : List String} {x : String} :
    x ∈ sdiff a b ↔ x ∈ a ∧ x ∉ b := by
  simp [sdiff]

theorem subB_iff {a b : List String} : subB a b = true ↔ ∀ x ∈ a, x ∈ b := by
  simp [subB]

theorem seqB_iff {a b : List String} :
    seqB a b = true ↔ (∀ x ∈ a, x ∈ b) ∧ (∀ x ∈ b, x ∈ a) := by
  simp [seqB, subB]

theorem runIds_append (s t : Sched) : runIds (s ++ t) = runIds s ++ runIds t := by
  simp [runIds]

theorem activeInames_append_run (s : Sched) (i : String) :
    activeInames (s ++ [SchedItem.run i]) = activeInames s := by
  simp [activeInames, List.foldl_append]

theorem activeInames_append_enter (s : Sched) (i : String) :
    activeInames (s ++ [SchedItem.enter i]) = activeInames s ++ [i] := by
  simp [activeInames, List.foldl_append]

theorem activeInames_append_leave (s : Sched) (i : String) :
    activeInames (s ++ [SchedItem.leave i]) = (activeInames s).dropLast := by
  simp [activeInames, List.foldl_append]

/-- One step of the stack-matching check: `EnterLoop` pushes, `LeaveLoop`
must match the most recent unmatched `EnterLoop` and pops it; a mismatch or
an underflow poisons the result. -/
def stackStep (acc : Option (List String)) (it : SchedItem) : Option (List String) :=
  match acc, it with
  | none, _ => none
  | some st, SchedItem.enter i => some (st ++ [i])
  | some st, SchedItem.leave i =>
      match st.getLast? with
      | some t => if t = i then some st.dropLast else none
      | none => none
  | some st, _ => some st

/-- The stack-matching check over a schedule: `some stack` when every
`LeaveLoop` so far closed the most recent unmatched `EnterLoop`, with
`stack` the still-open loops. -/
def stackOf (s : Sched) : Option (List String) := s.foldl stackStep (some [])

theorem stackOf_append (s t : Sched) :
    stackOf (s ++ t) = t.foldl stackStep (stackOf s) := by
  simp [stackOf, List.foldl_append]

/-- A schedule is stack-consistent: the matching check succeeds and agrees
with the (pop-sloppy) `activeInames` observer used by the search. -/
def StackOk (s : Sched) : Prop := stackOf s = some (activeInames s)

theorem StackOk_nil : StackOk [] := rfl

theorem StackOk.run {s : Sched} (h : StackOk s) (i : String) :
    StackOk (s ++ [SchedItem.run i]) := by
  unfold StackOk at *
  rw [stackOf_append, activeInames_append_run]
  simp [h, stackStep]

theorem StackOk.enter {s : Sched} (h : StackOk s) (i : String) :
    StackOk (s ++ [SchedItem.enter i]) := by
  unfold StackOk at *
  rw [stackOf_append, activeInames_append_enter]
  simp [h, stackStep]

theorem StackOk.leave {s : Sched} {last : String} (h : StackOk s)
    (hl : (activeInames s).getLast? = some last) :
    StackOk (s ++ [SchedItem.leave last]) := by
  unfold StackOk at *
  rw [stackOf_append, activeInames_append_leave]
  simp [h, stackStep, hl]

end Loopy

namespace Loopy

/-! ### Facts established at each commit point of the search -/

/-- What step 3 guarantees when it commits to running `insn`: the instruction
is the kernel's instruction of its id, unscheduled, its dependencies are all
scheduled, and its required inames match the active ones (up to
`boostable_into` when boosting). -/
def RunCommit (st : SState) (sched : Sched) (boost : Bool) (insn : Instruction) : Prop :=
  insn = idToInsn st.kernel insn.id ∧
  insn.id ∈ allIds st.kernel ∧
  insn.id ∉ runIds sched ∧
  subB insn.insn_deps (runIds sched) = true ∧
  seqB (sdiff insn.inames st.parallel_inames)
    (if boost then
       sdiff (sdiff (activeInames sched) st.parallel_inames) insn.boostable_into
     else sdiff (activeInames sched) st.parallel_inames) = true

theorem mem_insertDescBy {α : Type} (key : α → Int) (x : α) :
    ∀ (l : List α) (y : α), y ∈ insertDescBy key x l ↔ y = x ∨ y ∈ l
  | [], y => by simp [insertDescBy]
  | a :: rest, y => by
      simp only [insertDescBy]
      split
      · simp only [List.mem_cons]
      · rw [List.mem_cons, mem_insertDescBy key x rest y, List.mem_cons]
        tauto

theorem mem_sortDescBy {α : Type} (key : α → Int) :
    ∀ (l : List α) (y : α), y ∈ sortDescBy key l ↔ y ∈ l
  | [], y => by simp [sortDescBy]
  | a :: rest, y => by
      rw [sortDescBy, mem_insertDescBy key a (sortDescBy key rest) y,
        mem_sortDescBy key rest y, List.mem_cons]

theorem mem_of_getLast? {α : Type} : ∀ {l : List α} {a : α}, l.getLast? = some a → a ∈ l
  | [], _, h => by simp at h
  | [x], a, h => by
      simp only [List.getLast?_singleton, Option.some.injEq] at h
      simp [h]
  | x :: y :: rest, a, h => by
      rw [List.getLast?_cons_cons] at h
      exact List.mem_cons_of_mem x (mem_of_getLast? h)

theorem idToInsn_id (k : Kernel) (i : String) : (idToInsn k i).id = i := by
  unfold idToInsn
  cases h : (k.instructions.filter (fun insn => insn.id = i)).getLast? with
  | none => simp
  | some insn =>
      have hmem : insn ∈ k.instructions.filter (fun insn => insn.id = i) :=
        mem_of_getLast? h
      have hp := List.of_mem_filter hmem
      simp only [Option.getD_some]
      exact of_decide_eq_true hp

theorem scanReady_snd_some {par scheduled active : List String} {boost : Bool} :
    ∀ {l : List Instruction} {insn : Instruction},
    (scanReady par scheduled active boost l).2 = some insn →
    insn ∈ l ∧ subB insn.insn_deps scheduled = true ∧
      seqB (sdiff insn.inames par)
        (if boost then sdiff (sdiff active par) insn.boostable_into
         else sdiff active par) = true := by
  intro l
  induction l with
  | nil => intro insn h; simp [scanReady] at h
  | cons a rest ih =>
      intro insn h
      rw [scanReady] at h
      rcases hrec : scanReady par scheduled active boost rest with ⟨reach, fr⟩
      rw [hrec] at h
      by_cases hdep : subB a.insn_deps scheduled = true
      · simp only [hdep, Bool.not_true, if_false, if_true, Bool.true_eq_false,
          cond_true, cond_false] at h
        by_cases hrd : seqB (sdiff a.inames par)
            (if boost then sdiff (sdiff active par) a.boostable_into
             else sdiff active par) = true
        · simp only [hrd, if_true] at h
          cases h
          exact ⟨List.mem_cons_self a rest, hdep, hrd⟩
        · simp only [hrd, if_false] at h
          have := ih (by rw [hrec]; exact h)
          exact ⟨List.mem_cons_of_mem a this.1, this.2⟩
      · simp only [hdep] at h
        have := ih (by rw [hrec]; exact h)
        exact ⟨List.mem_cons_of_mem a this.1, this.2⟩

theorem scanOf_snd_some {st : SState} {sched : Sched} {ab : Option Bool}
    {insn : Instruction} (h : (scanOf st sched ab).2 = some insn) :
    RunCommit st sched (ab = some true) insn := by
  unfold scanOf at h
  obtain ⟨hmem, hdeps, hseq⟩ := scanReady_snd_some h
  rw [mem_sortDescBy] at hmem
  obtain ⟨id0, hid0, hins⟩ := List.mem_map.mp hmem
  have hid : insn.id = id0 := by rw [← hins]; exact idToInsn_id st.kernel id0
  have h1 : id0 ∈ allIds st.kernel ∧ id0 ∉ runIds sched := by
    simpa [unscheduledIdsOf] using hid0
  refine ⟨?_, ?_, ?_, hdeps, hseq⟩
  · rw [hid, hins]
  · rw [hid]; exact h1.1
  · rw [hid]; exact h1.2

/-! ### Where the yields of a call come from -/

theorem mem_seqSearch {r1 r2 : SearchRes} {s : Sched} (h : s ∈ (seqSearch r1 r2).1) :
    s ∈ r1.1 ∨ s ∈ r2.1 := by
  unfold seqSearch at h
  by_cases hb : r1.2 = true
  · simp only [hb, if_true] at h; exact Or.inl h
  · simp only [hb, if_false, Bool.false_eq_true] at h
    exact List.mem_append.mp h

theorem mem_tryTier {rec : Sched → Option Bool → Bool → SearchRes} {sched : Sched}
    {recAB : Option Bool} :
    ∀ {l : List String} {s : Sched}, s ∈ (tryTier rec sched recAB l).1 →
      ∃ i, s ∈ (rec (sched ++ [SchedItem.enter i]) recAB false).1 := by
  intro l
  induction l with
  | nil => intro s h; simp [tryTier] at h
  | cons a rest ih =>
      intro s h
      rw [tryTier] at h
      rcases mem_seqSearch h with h1 | h2
      · exact ⟨a, h1⟩
      · exact ih h2

theorem mem_tryTiers {rec : Sched → Option Bool → Bool → SearchRes} {sched : Sched}
    {recAB : Option Bool} {um : List (String × Int)} {fb : SearchRes} :
    ∀ {tiers : List (List String)} {s : Sched},
      s ∈ (tryTiers rec sched recAB um fb tiers).1 →
      s ∈ fb.1 ∨ ∃ i, s ∈ (rec (sched ++ [SchedItem.enter i]) recAB false).1 := by
  intro tiers
  induction tiers with
  | nil => intro s h; rw [tryTiers] at h; exact Or.inl h
  | cons t rest ih =>
      intro s h
      rw [tryTiers] at h
      split at h
      · exact Or.inr (mem_tryTier h)
      · split at h
        · exact Or.inr (mem_tryTier h)
        · exact ih h

theorem mem_searchFinal {rec : Sched → Option Bool → Bool → SearchRes} {sched : Sched}
    {ab : Option Bool} {ai : Bool} {active un : List String} {s : Sched}
    (h : s ∈ (searchFinal rec sched ab ai active un).1) :
    (s = sched ∧ active = [] ∧ un = [])
    ∨ (ai = false ∧ s ∈ (rec sched ab true).1)
    ∨ (ab = some false ∧ s ∈ (rec sched (some true) ai).1) := by
  unfold searchFinal at h
  split at h
  · next hcond =>
      simp only [List.mem_singleton] at h
      simp only [Bool.and_eq_true, decide_eq_true_eq] at hcond
      exact Or.inl ⟨h, hcond.1, hcond.2⟩
  · rcases mem_seqSearch h with h1 | h1
    · cases ai with
      | true => simp at h1
      | false => exact Or.inr (Or.inl ⟨rfl, by simpa using h1⟩)
    · by_cases hab : ab = some false
      · rw [if_pos hab] at h1
        exact Or.inr (Or.inr ⟨hab, h1⟩)
      · rw [if_neg hab] at h1
        simp at h1

theorem leaveOkOf_some {st : SState} {sched : Sched} {last : String}
    (h : leaveOkOf st sched = some last) :
    (activeInames sched).getLast? = some last := by
  unfold leaveOkOf at h
  split at h
  · simp at h
  · next l2 hgl =>
      split at h
      · cases h
        exact hgl
      · simp at h

/-- Every yield of a (successor-fuel) call comes from one of the six places a
call can produce yields: the step-3 run commitment, the step-4 leave
commitment, a step-5 loop entry, terminal success, the `allow_insn`
escalation retry, or the `allow_boost` escalation retry. -/
theorem search_succ_cases {st : SState} {lp : List String} {fuel : Nat} {sched : Sched}
    {ab : Option Bool} {ai : Bool} {s : Sched}
    (hs : s ∈ (search st lp (fuel+1) sched ab ai).1) :
    (∃ insn, RunCommit st sched (ab = some true) insn ∧
       s ∈ (search st lp fuel (sched ++ [SchedItem.run insn.id]) (recABOf ab) true).1)
    ∨ (∃ last, (activeInames sched).getLast? = some last ∧
       s ∈ (search st lp fuel (sched ++ [SchedItem.leave last]) (recABOf ab) ai).1)
    ∨ (∃ i, s ∈ (search st lp fuel (sched ++ [SchedItem.enter i]) (recABOf ab) false).1)
    ∨ (s = sched ∧ activeInames sched = [] ∧ unscheduledIdsOf st.kernel sched = [])
    ∨ (ai = false ∧ s ∈ (search st lp fuel sched ab true).1)
    ∨ (ab = some false ∧ s ∈ (search st lp fuel sched (some true) ai).1) := by
  rw [search] at hs
  split at hs
  · next insn heq =>
      have h2 : (scanOf st sched ab).2 = some insn := by
        by_cases hai : ai
        · simpa [hai] using heq
        · simp [hai] at heq
      exact Or.inl ⟨insn, scanOf_snd_some h2, hs⟩
  · unfold searchRest at hs
    split at hs
    · next last hlv =>
        exact Or.inr (Or.inl ⟨last, leaveOkOf_some hlv, hs⟩)
    · unfold searchEnter at hs
      split at hs
      · rcases mem_searchFinal hs with hterm | hesc1 | hesc2
        · exact Or.inr (Or.inr (Or.inr (Or.inl hterm)))
        · exact Or.inr (Or.inr (Or.inr (Or.inr (Or.inl hesc1))))
        · exact Or.inr (Or.inr (Or.inr (Or.inr (Or.inr hesc2))))
      · split at hs
        · simp at hs
        · rcases mem_tryTiers hs with hfb | ⟨i, hi⟩
          · rcases mem_searchFinal hfb with hterm | hesc1 | hesc2
            · exact Or.inr (Or.inr (Or.inr (Or.inl hterm)))
            · exact Or.inr (Or.inr (Or.inr (Or.inr (Or.inl hesc1))))
            · exact Or.inr (Or.inr (Or.inr (Or.inr (Or.inr hesc2))))
          · exact Or.inr (Or.inr (Or.inl ⟨i, hi⟩))

end Loopy

namespace Loopy

/-! ### Yield invariants of the search -/

/-- Every yielded schedule is terminal: no active loop and no unscheduled
instruction (step 6's success condition). -/
theorem search_terminal (st : SState) (lp : List String) :
    ∀ fuel sched ab ai, ∀ s ∈ (search st lp fuel sched ab ai).1,
      activeInames s = [] ∧ unscheduledIdsOf st.kernel s = [] := by
  intro fuel
  induction fuel with
  | zero => intro sched ab ai s hs; simp [search] at hs
  | succ n ih =>
      intro sched ab ai s hs
      rcases search_succ_cases hs with
        ⟨insn, _, hm⟩ | ⟨last, _, hm⟩ | ⟨i, hm⟩ | ⟨hss, h1, h2⟩ | ⟨_, hm⟩ | ⟨_, hm⟩
      · exact ih _ _ _ _ hm
      · exact ih _ _ _ _ hm
      · exact ih _ _ _ _ hm
      · subst hss; exact ⟨h1, h2⟩
      · exact ih _ _ _ _ hm
      · exact ih _ _ _ _ hm

/-- Any property preserved by the three schedule-extension steps (run with
its commit facts, leave of the innermost loop, enter of any loop) holds for
every yielded schedule. -/
theorem search_invariant (st : SState) (lp : List String) (P : Sched → Prop)
    (hrun : ∀ sched boost insn, RunCommit st sched boost insn →
        P sched → P (sched ++ [SchedItem.run insn.id]))
    (hleave : ∀ sched last, (activeInames sched).getLast? = some last →
        P sched → P (sched ++ [SchedItem.leave last]))
    (henter : ∀ sched i, P sched → P (sched ++ [SchedItem.enter i])) :
    ∀ fuel sched ab ai, P sched → ∀ s ∈ (search st lp fuel sched ab ai).1, P s := by
  intro fuel
  induction fuel with
  | zero => intro sched ab ai hP s hs; simp [search] at hs
  | succ n ih =>
      intro sched ab ai hP s hs
      rcases search_succ_cases hs with
        ⟨insn, hrc, hm⟩ | ⟨last, hl, hm⟩ | ⟨i, hm⟩ | ⟨hss, _, _⟩ | ⟨_, hm⟩ | ⟨_, hm⟩
      · exact ih _ _ _ (hrun _ _ _ hrc hP) _ hm
      · exact ih _ _ _ (hleave _ _ hl hP) _ hm
      · exact ih _ _ _ (henter _ _ hP) _ hm
      · subst hss; exact hP
      · exact ih _ _ _ hP _ hm
      · exact ih _ _ _ hP _ hm

/-- As `search_invariant`, but for a search started with `allow_boost=None`:
`None` propagates to every recursive call (`rec_allow_boost` stays `None` and
the boost escalation is disabled), so run commits never use boosting. -/
theorem search_invariant_none (st : SState) (lp : List String) (P : Sched → Prop)
    (hrun : ∀ sched insn, RunCommit st sched false insn →
        P sched → P (sched ++ [SchedItem.run insn.id]))
    (hleave : ∀ sched last, (activeInames sched).getLast? = some last →
        P sched → P (sched ++ [SchedItem.leave last]))
    (henter : ∀ sched i, P sched → P (sched ++ [SchedItem.enter i])) :
    ∀ fuel sched ai, P sched → ∀ s ∈ (search st lp fuel sched none ai).1, P s := by
  intro fuel
  induction fuel with
  | zero => intro sched ai hP s hs; simp [search] at hs
  | succ n ih =>
      intro sched ai hP s hs
      rcases search_succ_cases hs with
        ⟨insn, hrc, hm⟩ | ⟨last, hl, hm⟩ | ⟨i, hm⟩ | ⟨hss, _, _⟩ | ⟨_, hm⟩ | ⟨hab, _⟩
      · have hrc' : RunCommit st sched false insn := by
          simpa using hrc
        have hm' : s ∈ (search st lp n (sched ++ [SchedItem.run insn.id]) none true).1 := by
          simpa [recABOf] using hm
        exact ih _ _ (hrun _ _ hrc' hP) _ hm'
      · have hm' : s ∈ (search st lp n (sched ++ [SchedItem.leave last]) none ai).1 := by
          simpa [recABOf] using hm
        exact ih _ _ (hleave _ _ hl hP) _ hm'
      · have hm' : s ∈ (search st lp n (sched ++ [SchedItem.enter i]) none false).1 := by
          simpa [recABOf] using hm
        exact ih _ _ (henter _ _ hP) _ hm'
      · subst hss; exact hP
      · exact ih _ _ hP _ hm
      · simp at hab

/-! ### Concrete invariants: stack validity, run multiset, dependency order,
iname alignment -/

theorem search_stackOk (st : SState) (lp : List String) :
    ∀ fuel sched ab ai, StackOk sched →
      ∀ s ∈ (search st lp fuel sched ab ai).1, StackOk s :=
  search_invariant st lp StackOk
    (fun _ _ insn _ hP => hP.run insn.id)
    (fun _ _ hl hP => hP.leave hl)
    (fun _ i hP => hP.enter i)

/-- The run ids of a schedule are duplicate-free and are kernel instruction
ids. -/
def RunsOk (k : Kernel) (s : Sched) : Prop :=
  (runIds s).Nodup ∧ ∀ x ∈ runIds s, x ∈ allIds k

theorem runIds_single_run (i : String) : runIds [SchedItem.run i] = [i] := rfl

theorem runIds_single_leave (i : String) : runIds [SchedItem.leave i] = [] := rfl

theorem runIds_single_enter (i : String) : runIds [SchedItem.enter i] = [] := rfl

theorem search_runsOk (st : SState) (lp : List String) :
    ∀ fuel sched ab ai, RunsOk st.kernel sched →
      ∀ s ∈ (search st lp fuel sched ab ai).1, RunsOk st.kernel s := by
  refine search_invariant st lp (RunsOk st.kernel) ?_ ?_ ?_
  · intro sched boost insn hrc hP
    obtain ⟨_, hid1, hid2, _, _⟩ := hrc
    constructor
    · rw [runIds_append, runIds_single_run]
      rw [List.nodup_append]
      exact ⟨hP.1, List.nodup_singleton _, by simpa [List.Disjoint] using
        (fun x hx hx2 => hid2 (by simpa using hx2 ▸ hx))⟩
    · intro x hx
      rw [runIds_append, runIds_single_run] at hx
      rcases List.mem_append.mp hx with h1 | h1
      · exact hP.2 x h1
      · simp at h1; subst h1; exact hid1
  · intro sched last _ hP
    constructor
    · rw [runIds_append, runIds_single_leave, List.append_nil]; exact hP.1
    · intro x hx
      rw [runIds_append, runIds_single_leave, List.append_nil] at hx
      exact hP.2 x hx
  · intro sched i hP
    constructor
    · rw [runIds_append, runIds_single_enter, List.append_nil]; exact hP.1
    · intro x hx
      rw [runIds_append, runIds_single_enter, List.append_nil] at hx
      exact hP.2 x hx

end Loopy

namespace Loopy

theorem mem_runIds {s : Sched} {a : String} :
    a ∈ runIds s ↔ ∃ i, s.get? i = some (SchedItem.run a) := by
  unfold runIds
  rw [List.mem_filterMap]
  constructor
  · rintro ⟨it, hit, hf⟩
    cases it with
    | run i =>
        simp only [Option.some.injEq] at hf
        subst hf
        obtain ⟨n, hn⟩ := List.mem_iff_get?.mp hit
        exact ⟨n, hn⟩
    | enter i => simp at hf
    | leave i => simp at hf
    | barrier c b => simp at hf
  · rintro ⟨i, hi⟩
    exact ⟨SchedItem.run a, List.get?_mem hi, rfl⟩

/-- Dependency order: the direct `insn_deps` of every run instruction (as
resolved through `id_to_insn`) appear as strictly earlier runs. -/
def DepOrd (k : Kernel) (s : Sched) : Prop :=
  ∀ j b, s.get? j = some (SchedItem.run b) →
    ∀ a ∈ (idToInsn k b).insn_deps, ∃ i, i < j ∧ s.get? i = some (SchedItem.run a)

theorem DepOrd_run {k : Kernel} {s : Sched} (h : DepOrd k s) {insn : Instruction}
    (hins : insn = idToInsn k insn.id)
    (hdeps : subB insn.insn_deps (runIds s) = true) :
    DepOrd k (s ++ [SchedItem.run insn.id]) := by
  intro j b hj a ha
  by_cases hlt : j < s.length
  · rw [List.get?_append hlt] at hj
    obtain ⟨i, hi1, hi2⟩ := h j b hj a ha
    refine ⟨i, hi1, ?_⟩
    rw [List.get?_append (Nat.lt_trans hi1 hlt)]
    exact hi2
  · have hj2 : j < s.length + 1 := by
      obtain ⟨hl, _⟩ := List.get?_eq_some.mp hj
      simpa using hl
    have hj3 : j = s.length := by omega
    subst hj3
    rw [List.get?_concat_length] at hj
    injection hj with h2
    injection h2 with h3
    subst h3
    rw [← hins] at ha
    have ha2 : a ∈ runIds s := (subB_iff.mp hdeps) a ha
    obtain ⟨i, hi⟩ := mem_runIds.mp ha2
    have hilen : i < s.length := by
      obtain ⟨hl, _⟩ := List.get?_eq_some.mp hi
      exact hl
    refine ⟨i, hilen, ?_⟩
    rw [List.get?_append hilen]
    exact hi

theorem DepOrd_nonrun {k : Kernel} {s : Sched} (h : DepOrd k s) {it : SchedItem}
    (hit : ∀ x, it ≠ SchedItem.run x) :
    DepOrd k (s ++ [it]) := by
  intro j b hj a ha
  by_cases hlt : j < s.length
  · rw [List.get?_append hlt] at hj
    obtain ⟨i, hi1, hi2⟩ := h j b hj a ha
    refine ⟨i, hi1, ?_⟩
    rw [List.get?_append (Nat.lt_trans hi1 hlt)]
    exact hi2
  · have hj2 : j < s.length + 1 := by
      obtain ⟨hl, _⟩ := List.get?_eq_some.mp hj
      simpa using hl
    have hj3 : j = s.length := by omega
    subst hj3
    rw [List.get?_concat_length] at hj
    injection hj with h2
    exact absurd h2 (hit b)

theorem search_depOrd (st : SState) (lp : List String) :
    ∀ fuel sched ab ai, DepOrd st.kernel sched →
      ∀ s ∈ (search st lp fuel sched ab ai).1, DepOrd st.kernel s := by
  refine search_invariant st lp (DepOrd st.kernel) ?_ ?_ ?_
  · intro sched boost insn hrc hP
    exact DepOrd_run hP hrc.1 hrc.2.2.2.1
  · intro sched last _ hP
    exact DepOrd_nonrun hP (fun x => by simp)
  · intro sched i hP
    exact DepOrd_nonrun hP (fun x => by simp)

/-- Iname alignment at every run (boosted form): the required non-parallel
inames are exactly covered by the active ones, any surplus lying inside
`boostable_into`. -/
def InameInv (st : SState) (s : Sched) : Prop :=
  ∀ j x, s.get? j = some (SchedItem.run x) →
    (∀ y ∈ sdiff (idToInsn st.kernel x).inames st.parallel_inames,
        y ∈ sdiff (activeInames (s.take j)) st.parallel_inames) ∧
    (∀ y ∈ sdiff (activeInames (s.take j)) st.parallel_inames,
        y ∉ sdiff (idToInsn st.kernel x).inames st.parallel_inames →
        y ∈ (idToInsn st.kernel x).boostable_into)

/-- Iname alignment at every run, exact form (no boosting anywhere): the
active non-parallel inames equal the instruction's non-parallel inames. -/
def InameInvExact (st : SState) (s : Sched) : Prop :=
  ∀ j x, s.get? j = some (SchedItem.run x) →
    ∀ y, y ∈ sdiff (idToInsn st.kernel x).inames st.parallel_inames ↔
      y ∈ sdiff (activeInames (s.take j)) st.parallel_inames

theorem InameInv_nonrun {st : SState} {s : Sched} (h : InameInv st s) {it : SchedItem}
    (hit : ∀ x, it ≠ SchedItem.run x) :
    InameInv st (s ++ [it]) := by
  intro j x hj
  by_cases hlt : j < s.length
  · rw [List.get?_append hlt] at hj
    rw [List.take_append_of_le_length (Nat.le_of_lt hlt)]
    exact h j x hj
  · have hj2 : j < s.length + 1 := by
      obtain ⟨hl, _⟩ := List.get?_eq_some.mp hj
      simpa using hl
    have hj3 : j = s.length := by omega
    subst hj3
    rw [List.get?_concat_length] at hj
    injection hj with h2
    exact absurd h2 (hit x)

theorem InameInv_run {st : SState} {s : Sched} (h : InameInv st s) {boost : Bool}
    {insn : Instruction} (hrc : RunCommit st s boost insn) :
    InameInv st (s ++ [SchedItem.run insn.id]) := by
  intro j x hj
  by_cases hlt : j < s.length
  · rw [List.get?_append hlt] at hj
    rw [List.take_append_of_le_length (Nat.le_of_lt hlt)]
    exact h j x hj
  · have hj2 : j < s.length + 1 := by
      obtain ⟨hl, _⟩ := List.get?_eq_some.mp hj
      simpa using hl
    have hj3 : j = s.length := by omega
    subst hj3
    rw [List.get?_concat_length] at hj
    injection hj with h2
    injection h2 with h3
    subst h3
    rw [List.take_left]
    obtain ⟨hins, _, _, _, hseq⟩ := hrc
    rw [← hins]
    rw [seqB_iff] at hseq
    cases boost with
    | false =>
        simp only [Bool.false_eq_true, if_false] at hseq
        refine ⟨hseq.1, ?_⟩
        intro y hy hny
        exact absurd (hseq.2 y hy) hny
    | true =>
        simp only [if_true] at hseq
        constructor
        · intro y hy
          have := hseq.1 y hy
          exact (mem_sdiff.mp this).1
        · intro y hy hny
          by_cases hb : y ∈ insn.boostable_into
          · exact hb
          · have : y ∈ sdiff (sdiff (activeInames s) st.parallel_inames)
                insn.boostable_into := mem_sdiff.mpr ⟨hy, hb⟩
            exact absurd (hseq.2 y this) hny

theorem InameInvExact_nonrun {st : SState} {s : Sched} (h : InameInvExact st s)
    {it : SchedItem} (hit : ∀ x, it ≠ SchedItem.run x) :
    InameInvExact st (s ++ [it]) := by
  intro j x hj
  by_cases hlt : j < s.length
  · rw [List.get?_append hlt] at hj
    rw [List.take_append_of_le_length (Nat.le_of_lt hlt)]
    exact h j x hj
  · have hj2 : j < s.length + 1 := by
      obtain ⟨hl, _⟩ := List.get?_eq_some.mp hj
      simpa using hl
    have hj3 : j = s.length := by omega
    subst hj3
    rw [List.get?_concat_length] at hj
    injection hj with h2
    exact absurd h2 (hit x)

theorem InameInvExact_run {st : SState} {s : Sched} (h : InameInvExact st s)
    {insn : Instruction} (hrc : RunCommit st s false insn) :
    InameInvExact st (s ++ [SchedItem.run insn.id]) := by
  intro j x hj
  by_cases hlt : j < s.length
  · rw [List.get?_append hlt] at hj
    rw [List.take_append_of_le_length (Nat.le_of_lt hlt)]
    exact h j x hj
  · have hj2 : j < s.length + 1 := by
      obtain ⟨hl, _⟩ := List.get?_eq_some.mp hj
      simpa using hl
    have hj3 : j = s.length := by omega
    subst hj3
    rw [List.get?_concat_length] at hj
    injection hj with h2
    injection h2 with h3
    subst h3
    rw [List.take_left]
    obtain ⟨hins, _, _, _, hseq⟩ := hrc
    rw [← hins]
    rw [seqB_iff] at hseq
    simp only [Bool.false_eq_true, if_false] at hseq
    intro y
    exact ⟨fun hy => hseq.1 y hy, fun hy => hseq.2 y hy⟩

theorem search_inameInv (st : SState) (lp : List String) :
    ∀ fuel sched ab ai, InameInv st sched →
      ∀ s ∈ (search st lp fuel sched ab ai).1, InameInv st s := by
  refine search_invariant st lp (InameInv st) ?_ ?_ ?_
  · intro sched boost insn hrc hP
    exact InameInv_run hP hrc
  · intro sched last _ hP
    exact InameInv_nonrun hP (fun x => by simp)
  · intro sched i hP
    exact InameInv_nonrun hP (fun x => by simp)

theorem search_inameInvExact (st : SState) (lp : List String) :
    ∀ fuel sched ai, InameInvExact st sched →
      ∀ s ∈ (search st lp fuel sched none ai).1, InameInvExact st s := by
  refine search_invariant_none st lp (InameInvExact st) ?_ ?_ ?_
  · intro sched insn hrc hP
    exact InameInvExact_run hP hrc
  · intro sched last _ hP
    exact InameInvExact_nonrun hP (fun x => by simp)
  · intro sched i hP
    exact InameInvExact_nonrun hP (fun x => by simp)

end Loopy

namespace Loopy

/-! ### Concrete kernels used as witnesses and counterexamples -/

/-- A single dependency-free, iname-free instruction. -/
def insnA : Instruction :=
  { id := "a", insn_deps := [], priority := 0, boostable_into := [],
    inames := [], reads := [], writes := [] }

/-- An instruction depending on `insnA`. -/
def insnB : Instruction :=
  { id := "b", insn_deps := ["a"], priority := 0, boostable_into := [],
    inames := [], reads := [], writes := [] }

/-- A preprocessed one-instruction kernel. -/
def exKernelOne : Kernel :=
  { instructions := [insnA],
    domains := [], iname_to_tag := [], loop_priority := [],
    temporary_variables := [], global_arg_names := [],
    state := KState.preprocessed, schedule := [] }

/-- A preprocessed two-instruction kernel with one dependency. -/
def exKernelTwo : Kernel :=
  { exKernelOne with instructions := [insnA, insnB] }

/-- A kernel with a read-after-write hazard on the global argument `g`:
`a` writes `g`, `b` (depending on `a`) reads `g`. -/
def exKernelGlobal : Kernel :=
  { instructions :=
      [{ id := "a", insn_deps := [], priority := 0, boostable_into := [],
         inames := [], reads := ["x"], writes := ["g"] },
       { id := "b", insn_deps := ["a"], priority := 0, boostable_into := [],
         inames := [], reads := ["g"], writes := ["h"] }],
    domains := [], iname_to_tag := [], loop_priority := [],
    temporary_variables := [], global_arg_names := ["g", "h", "x"],
    state := KState.preprocessed, schedule := [] }

/-- A kernel for the pre-loop barrier check: `a` writes the local temporary
`t` before the loop; in the loop body `b` (depending on `a`) reads `t`, and
`d` (depending on `c`) reads the local temporary `u` written by `c`, so that
barrier insertion puts a barrier inside the loop body. -/
def exKernelLoop : Kernel :=
  { instructions :=
      [{ id := "a", insn_deps := [], priority := 0, boostable_into := [],
         inames := [], reads := [], writes := ["t"] },
       { id := "b", insn_deps := ["a"], priority := 0, boostable_into := [],
         inames := ["l"], reads := ["t"], writes := ["y"] },
       { id := "c", insn_deps := [], priority := 0, boostable_into := [],
         inames := ["l"], reads := [], writes := ["u"] },
       { id := "d", insn_deps := ["c"], priority := 0, boostable_into := [],
         inames := ["l"], reads := ["u"], writes := ["z"] }],
    domains := [{ set_vars := ["l"], param_vars := [] }],
    iname_to_tag := [], loop_priority := [],
    temporary_variables := [{ name := "t", is_local := true },
                            { name := "u", is_local := true }],
    global_arg_names := ["y", "z"],
    state := KState.preprocessed, schedule := [] }

/-- The completed schedule handed to barrier insertion for `exKernelLoop`. -/
def exSchedLoop : Sched :=
  [SchedItem.run "a", SchedItem.enter "l", SchedItem.run "b",
   SchedItem.run "c", SchedItem.run "d", SchedItem.leave "l"]

/-- A kernel where the ILP-tagged iname `i` is a domain parameter of `j`'s
home domain. -/
def exKernelIlpParam : Kernel :=
  { instructions :=
      [{ id := "u", insn_deps := [], priority := 0, boostable_into := [],
         inames := ["i", "j"], reads := [], writes := ["w"] }],
    domains := [{ set_vars := ["i"], param_vars := [] },
                { set_vars := ["j"], param_vars := ["i"] }],
    iname_to_tag := [("i", Tag.ilp)], loop_priority := [],
    temporary_variables := [], global_arg_names := ["w"],
    state := KState.preprocessed, schedule := [] }

/-- A kernel whose iname `j` has the temporary `n` as a home-domain parameter
while no instruction writes `n` (zero writers). -/
def exKernelNoWriter : Kernel :=
  { instructions :=
      [{ id := "u", insn_deps := [], priority := 0, boostable_into := [],
         inames := ["j"], reads := [], writes := ["w"] }],
    domains := [{ set_vars := ["j"], param_vars := ["n"] }],
    iname_to_tag := [], loop_priority := [],
    temporary_variables := [{ name := "n", is_local := false }],
    global_arg_names := ["w"],
    state := KState.preprocessed, schedule := [] }

/-! ### C9: scheduling requires a preprocessed kernel -/

/-- C9: `generate_loop_schedules` called on a kernel whose state is not
PREPROCESSED raises a `LoopyError` up front — before building the loop-nest
map or starting any search (the result is the same for every such kernel,
regardless of its other fields) — and yields no schedule. -/
theorem generate_loop_schedules_requires_preprocessed (k : Kernel) (fuel : Nat)
    (h : k.state ≠ KState.preprocessed) :
    generate_loop_schedules k fuel = ([], some GlErr.notPreprocessed) := by
  unfold generate_loop_schedules
  rw [if_pos h]

/-- Witness for C9 at a concrete INITIAL-state kernel. -/
theorem generate_loop_schedules_requires_preprocessed_witness :
    generate_loop_schedules { exKernelOne with state := KState.initial } 4
      = ([], some GlErr.notPreprocessed) :=
  generate_loop_schedules_requires_preprocessed _ 4 (by decide)

/-! ### C8: ILP inames in the loop-nest map -/

theorem mem_foldl_append {α β : Type} (f : α → List β) :
    ∀ (l : List α) (acc : List β) (x : β),
      x ∈ l.foldl (fun acc d => acc ++ f d) acc ↔ x ∈ acc ∨ ∃ d ∈ l, x ∈ f d := by
  intro l
  induction l with
  | nil => simp
  | cons a rest ih =>
      intro acc x
      simp only [List.foldl_cons]
      rw [ih]
      simp only [List.mem_append]
      constructor
      · rintro (⟨h1 | h1⟩ | ⟨d, hd, hx⟩)
        · exact Or.inl h1
        · exact Or.inr ⟨a, List.mem_cons_self a rest, h1⟩
        · exact Or.inr ⟨d, List.mem_cons_of_mem a hd, hx⟩
      · rintro (h1 | ⟨d, hd, hx⟩)
        · exact Or.inl (Or.inl h1)
        · rcases List.mem_cons.mp hd with rfl | hd2
          · exact Or.inl (Or.inr hx)
          · exact Or.inr ⟨d, hd2, hx⟩

/-- C8 counterexample: in the loop-nest map of `exKernelIlpParam`, the
ILP-tagged iname `i` does appear in `j`'s required-outer set (through the
domain-parameter source), contradicting the claim as stated. -/
theorem loopNestMap_ilp_counterexample :
    "i" ∈ loopNestMap exKernelIlpParam "j"
      ∧ tagOf exKernelIlpParam "i" = Tag.ilp := by
  decide

/-- C8 amended: an ILP-tagged iname never enters a required-outer set through
the instruction-set-containment source; when it appears in `loop_nest_map[I]`
it does so only because it is a domain parameter of a domain containing `I`. -/
theorem loopNestMap_ilp_only_from_domain_params (k : Kernel) (I J : String)
    (hmem : J ∈ loopNestMap k I) (hilp : tagOf k J = Tag.ilp) :
    ∃ d ∈ k.domains, I ∈ d.set_vars ∧ J ∈ d.param_vars := by
  unfold loopNestMap at hmem
  rcases List.mem_append.mp hmem with h1 | h1
  · have hcond := List.of_mem_filter h1
    simp only [Bool.and_eq_true, decide_eq_true_eq] at hcond
    exact absurd hilp hcond.1.2
  · rw [mem_foldl_append] at h1
    rcases h1 with h1 | ⟨d, hd, hx⟩
    · simp at h1
    · refine ⟨d, List.mem_of_mem_filter hd, ?_, List.mem_of_mem_filter hx⟩
      have := List.of_mem_filter hd
      exact of_decide_eq_true this

/-- Witness for the amended C8, instantiated at `exKernelIlpParam`. -/
theorem loopNestMap_ilp_only_from_domain_params_witness :
    ∃ d ∈ exKernelIlpParam.domains, "j" ∈ d.set_vars ∧ "i" ∈ d.param_vars :=
  loopNestMap_ilp_only_from_domain_params exKernelIlpParam "j" "i"
    (by decide) (by decide)

end Loopy

namespace Loopy

theorem mkSchedulerState_kernel (k : Kernel) : (mkSchedulerState k).kernel = k := rfl

/-! ### C4: well-nestedness and completeness of yielded schedules -/

/-- C4: every schedule yielded by the search (from the entry point's initial
call, either boost mode) is well-nested — the stack-matching check succeeds
with every `LeaveLoop` closing the most recent unmatched `EnterLoop` and no
loop left open — and runs every kernel instruction id exactly once: the run
ids are duplicate-free and coincide with the kernel's instruction ids. -/
theorem search_schedules_wellnested_complete (k : Kernel) (fuel : Nat)
    (ab : Option Bool) (s : Sched)
    (hs : s ∈ (search (mkSchedulerState k) k.loop_priority fuel [] ab false).1) :
    stackOf s = some [] ∧ (runIds s).Nodup
      ∧ (∀ x, x ∈ allIds k ↔ x ∈ runIds s) := by
  have hterm := search_terminal (mkSchedulerState k) k.loop_priority fuel [] ab false s hs
  have hstack : StackOk s :=
    search_stackOk (mkSchedulerState k) k.loop_priority fuel [] ab false StackOk_nil s hs
  have hruns : RunsOk k s :=
    search_runsOk (mkSchedulerState k) k.loop_priority fuel [] ab false
      ⟨List.nodup_nil, by intro x hx; simp [runIds] at hx⟩ s hs
  refine ⟨?_, hruns.1, ?_⟩
  · unfold StackOk at hstack
    rw [hstack, hterm.1]
  · intro x
    constructor
    · intro hx
      have hempty := hterm.2
      unfold unscheduledIdsOf at hempty
      rw [mkSchedulerState_kernel] at hempty
      by_contra hnx
      have hmem : x ∈ (allIds k).filter (fun i => i ∉ runIds s) := by
        rw [List.mem_filter]
        exact ⟨hx, by simpa using hnx⟩
      rw [hempty] at hmem
      simp at hmem
    · exact hruns.2 x

/-- Witness for C4 at `exKernelTwo` and its unique schedule. -/
theorem search_schedules_wellnested_complete_witness :
    stackOf [SchedItem.run "a", SchedItem.run "b"] = some []
      ∧ (runIds [SchedItem.run "a", SchedItem.run "b"]).Nodup
      ∧ (∀ x, x ∈ allIds exKernelTwo
          ↔ x ∈ runIds [SchedItem.run "a", SchedItem.run "b"]) :=
  search_schedules_wellnested_complete exKernelTwo 5 none
    [SchedItem.run "a", SchedItem.run "b"] (by decide)

/-! ### C3: dependency order of yielded schedules -/

/-- Direct-or-transitive dependency through `insn_deps` (instructions resolved
through `id_to_insn`, as `recursive_insn_dep_map` does). -/
inductive TransDep (k : Kernel) : String → String → Prop
  | direct {a b : String} (h : a ∈ (idToInsn k b).insn_deps) : TransDep k a b
  | step {a b c : String} (h : a ∈ (idToInsn k b).insn_deps) (h2 : TransDep k b c) :
      TransDep k a c

/-- C3: in every schedule the search yields, whenever `b` depends directly or
transitively on `a` via `insn_deps`, every `RunInstruction` of `b` is
preceded by a `RunInstruction` of `a`. -/
theorem search_dependency_order (k : Kernel) (fuel : Nat) (ab : Option Bool)
    (s : Sched)
    (hs : s ∈ (search (mkSchedulerState k) k.loop_priority fuel [] ab false).1)
    (a b : String) (hdep : TransDep k a b) :
    ∀ j, s.get? j = some (SchedItem.run b) →
      ∃ i, i < j ∧ s.get? i = some (SchedItem.run a) := by
  have hord : DepOrd k s :=
    search_depOrd (mkSchedulerState k) k.loop_priority fuel [] ab false
      (by intro j b hj; simp at hj) s hs
  induction hdep with
  | direct h => intro j hj; exact hord j _ hj _ h
  | step h h2 ih =>
      intro j hj
      obtain ⟨m, hm1, hm2⟩ := ih j hj
      obtain ⟨i, hi1, hi2⟩ := hord m _ hm2 _ h
      exact ⟨i, Nat.lt_trans hi1 hm1, hi2⟩

/-- Witness for C3: in `exKernelTwo`'s schedule, `a` runs before `b`. -/
theorem search_dependency_order_witness :
    ∃ i, i < 1 ∧ ([SchedItem.run "a", SchedItem.run "b"] : Sched).get? i
      = some (SchedItem.run "a") :=
  search_dependency_order exKernelTwo 5 none
    [SchedItem.run "a", SchedItem.run "b"] (by decide) "a" "b"
    (TransDep.direct (by decide)) 1 (by decide)

/-! ### C2: active inames at each run -/

/-- C2: at every `RunInstruction` of a yielded schedule, the active inames
minus the hardware-parallel ones cover the instruction's required inames
minus the parallel ones, any surplus lies inside the instruction's
`boostable_into`, and for the boost-free search (`allow_boost=None`) the two
sets agree exactly. -/
theorem search_run_iname_alignment (k : Kernel) (fuel : Nat) (ab : Option Bool)
    (s : Sched)
    (hs : s ∈ (search (mkSchedulerState k) k.loop_priority fuel [] ab false).1)
    (j : Nat) (x : String) (hj : s.get? j = some (SchedItem.run x)) :
    (∀ y ∈ sdiff (idToInsn k x).inames (mkSchedulerState k).parallel_inames,
        y ∈ sdiff (activeInames (s.take j)) (mkSchedulerState k).parallel_inames)
    ∧ (∀ y ∈ sdiff (activeInames (s.take j)) (mkSchedulerState k).parallel_inames,
        y ∉ sdiff (idToInsn k x).inames (mkSchedulerState k).parallel_inames →
        y ∈ (idToInsn k x).boostable_into)
    ∧ (ab = none →
        ∀ y, y ∈ sdiff (idToInsn k x).inames (mkSchedulerState k).parallel_inames ↔
          y ∈ sdiff (activeInames (s.take j)) (mkSchedulerState k).parallel_inames) := by
  have h1 := search_inameInv (mkSchedulerState k) k.loop_priority fuel [] ab false
      (by intro j x hj; simp at hj) s hs j x hj
  refine ⟨h1.1, h1.2, ?_⟩
  rintro rfl
  exact search_inameInvExact (mkSchedulerState k) k.loop_priority fuel [] false
      (by intro j x hj; simp at hj) s hs j x hj

/-- Witness for C2 at `exKernelTwo`, instruction `a` at position 0. -/
theorem search_run_iname_alignment_witness :
    (∀ y ∈ sdiff (idToInsn exKernelTwo "a").inames
        (mkSchedulerState exKernelTwo).parallel_inames,
      y ∈ sdiff (activeInames (([SchedItem.run "a", SchedItem.run "b"] : Sched).take 0))
        (mkSchedulerState exKernelTwo).parallel_inames)
    ∧ (∀ y ∈ sdiff (activeInames
          (([SchedItem.run "a", SchedItem.run "b"] : Sched).take 0))
          (mkSchedulerState exKernelTwo).parallel_inames,
        y ∉ sdiff (idToInsn exKernelTwo "a").inames
          (mkSchedulerState exKernelTwo).parallel_inames →
        y ∈ (idToInsn exKernelTwo "a").boostable_into)
    ∧ ((none : Option Bool) = none →
        ∀ y, y ∈ sdiff (idToInsn exKernelTwo "a").inames
            (mkSchedulerState exKernelTwo).parallel_inames ↔
          y ∈ sdiff (activeInames
            (([SchedItem.run "a", SchedItem.run "b"] : Sched).take 0))
            (mkSchedulerState exKernelTwo).parallel_inames) :=
  search_run_iname_alignment exKernelTwo 5 none
    [SchedItem.run "a", SchedItem.run "b"] (by decide) 0 "a" (by decide)

end Loopy

namespace Loopy

/-! ### C10: single-writer assumption of the loop-entry check -/

/-- C10: the loop-entry check destructures the writer map of each home-domain
parameter that is a temporary as exactly one writer: under the single-writer
precondition it is total and returns whether every such writer has been
scheduled (so entry is deferred until then); and on a kernel with zero
writers of such a parameter the search aborts with an error and yields
nothing. -/
theorem dataDepWritten_single_writer :
    (∀ (k : Kernel) (scheduled ps : List String),
        (∀ p ∈ ps, ∃ w, writerMap k p = [w]) →
        dataDepWritten k scheduled ps =
          Except.ok (ps.all
            (fun p => (writerMap k p).all (fun w => w ∈ scheduled))))
    ∧ (∀ fuel : Nat,
        search (mkSchedulerState exKernelNoWriter) exKernelNoWriter.loop_priority
          (fuel+1) [] none false = ([], true)) := by
  constructor
  · intro k scheduled ps hps
    induction ps with
    | nil => simp [dataDepWritten]
    | cons p rest ih =>
        obtain ⟨w, hw⟩ := hps p (List.mem_cons_self p rest)
        simp only [dataDepWritten, hw]
        by_cases hsch : w ∈ scheduled
        · rw [if_pos hsch]
          rw [ih (fun q hq => hps q (List.mem_cons_of_mem p hq))]
          simp [hw, hsch]
        · rw [if_neg hsch]
          simp [hw, hsch]
  · intro fuel
    rfl

/-- Witness for C10's single-writer half: the one writer of `t` in
`exKernelLoop`, already scheduled. -/
theorem dataDepWritten_single_writer_witness :
    dataDepWritten exKernelLoop ["a"] ["t"] =
      Except.ok ((["t"] : List String).all
        (fun p => (writerMap exKernelLoop p).all
          (fun w => w ∈ (["a"] : List String)))) :=
  dataDepWritten_single_writer.1 exKernelLoop ["a"] ["t"]
    (by
      intro p hp
      rw [List.mem_singleton] at hp
      subst hp
      exact ⟨"a", by decide⟩)

/-! ### C5: dead-end escalation -/

/-- C5 counterexample: on the one-instruction kernel, the stuck call with
`allow_insn=False` and `allow_boost=False` yields the single schedule TWICE —
once through the `allow_insn=True` retry and once more through the
additionally-run `allow_boost=True` retry — whereas the claimed mutually
exclusive single escalation step (the `allow_insn` retry alone, second
conjunct) yields it once. -/
theorem escalation_not_exclusive_counterexample :
    search (mkSchedulerState exKernelOne) exKernelOne.loop_priority 4 []
        (some false) false
      = ([[SchedItem.run "a"], [SchedItem.run "a"]], false)
    ∧ search (mkSchedulerState exKernelOne) exKernelOne.loop_priority 3 []
        (some false) true
      = ([[SchedItem.run "a"]], false) := by
  decide

/-- C5 amended: when a call can neither schedule an instruction, nor leave
the innermost loop, nor enter any loop (step 5 falls through to its
fallback), nor terminate successfully, then: if `allow_insn` was false the
call retries with `allow_insn=True`, AND — not exclusively — if `allow_boost`
is `False` it also retries with `allow_boost=True`, sequencing the two
retries' yields (the second skipped only if the first raised); when
`allow_boost` is `None` or `True` only the dead-end report remains, even if
the `allow_insn` retry yielded. -/
theorem escalation_steps (st : SState) (lp : List String) (fuel : Nat)
    (sched : Sched) (ab : Option Bool) (ai : Bool)
    (hready : (if ai then (scanOf st sched ab).2 else none) = none)
    (hleave : leaveOkOf st sched = none)
    (henter : ∀ fb : SearchRes,
        searchEnter st lp (search st lp fuel) sched (recABOf ab) (runIds sched)
          (activeInames sched) (scanOf st sched ab).1
          (unschedInsnsOf st.kernel sched) fb = fb)
    (hterm : ¬(activeInames sched = [] ∧ unscheduledIdsOf st.kernel sched = [])) :
    search st lp (fuel+1) sched ab ai =
      seqSearch (if !ai then search st lp fuel sched ab true else ([], false))
        (if ab = some false then search st lp fuel sched (some true) ai
         else ([], false)) := by
  rw [search, hready]
  unfold searchRest
  rw [hleave]
  rw [henter]
  unfold searchFinal
  rw [if_neg (by simpa using hterm)]

/-- Witness for the amended C5 at the one-instruction kernel. -/
theorem escalation_steps_witness :
    search (mkSchedulerState exKernelOne) exKernelOne.loop_priority 4 []
        (some false) false
      = seqSearch
          (if !false then
             search (mkSchedulerState exKernelOne) exKernelOne.loop_priority 3 []
               (some false) true
           else ([], false))
          (if (some false : Option Bool) = some false then
             search (mkSchedulerState exKernelOne) exKernelOne.loop_priority 3 []
               (some true) false
           else ([], false)) :=
  escalation_steps (mkSchedulerState exKernelOne) exKernelOne.loop_priority 3 []
    (some false) false (by decide) (by decide) (fun fb => rfl) (by decide)

/-! ### C1: barrier soundness of the entry point -/

/-- C1 (code bug): on `exKernelGlobal` the entry point returns the schedule
`[run a, run b]` with no barrier of any kind, even though a barrier-needing
global-kind hazard between `a` and `b` exists — the entry point only ever
inserts local-kind barriers (its global pass is commented out), so the
claimed "no unguarded hazardous pair for both kinds" fails for the global
kind. -/
theorem entry_global_hazard_unguarded :
    ((generate_loop_schedules exKernelGlobal 5).1.map (fun kk => kk.schedule))
      = [[SchedItem.run "a", SchedItem.run "b"]]
    ∧ (generate_loop_schedules exKernelGlobal 5).2 = none
    ∧ getBarrierNeedingDependency exKernelGlobal "b" "a" false BKind.global ≠ none := by
  decide

/-! ### C6: the pre-loop hazard check -/

/-- C6 (code bug): on `exSchedLoop`, the loop body receives internal local
barriers, so `seen_barrier()` has already cleared `candidates` by the time
the "check if a barrier is needed before the loop" runs; the hazard between
`a` (before the loop, on local `t`) and `b` (in the leading
before-first-barrier part of the body) is therefore never found and no
barrier is emitted before the loop, though the claim requires one. -/
theorem insert_barriers_preloop_hazard_unguarded :
    insertBarriers exKernelLoop 7 exSchedLoop false BKind.local 0
      = some [SchedItem.run "a", SchedItem.enter "l", SchedItem.run "b",
          SchedItem.barrier "for u (c rev-depends on d)" BKind.local,
          SchedItem.run "c",
          SchedItem.barrier "for u (d depends on c)" BKind.local,
          SchedItem.run "d", SchedItem.leave "l"]
    ∧ getBarrierNeedingDependency exKernelLoop "b" "a" false BKind.local ≠ none := by
  decide

end Loopy

namespace Loopy

/-! ### C7: the two searches and the two-result consumer -/

/-- C7: the entry point runs the `allow_boost=None` search first and, when it
yields (cleanly), its post-processed yields are the result — the unboosted
search is preferred; only when the no-boost search yields nothing does the
default-boost search supply the result.  The single-kernel consumer pulls at
most two results: one clean result is returned unambiguous; as soon as a
second exists the first is kept and the ambiguity warning is flagged, with
everything after the second result (later yields or a pending error) never
consulted. -/
theorem entry_prefers_unboosted_and_consumer_take_two :
    (∀ (k : Kernel) (fuel : Nat),
        k.state = KState.preprocessed → preScheduleChecksOk k = true →
        (attachAll k (search (mkSchedulerState k) k.loop_priority fuel []
            none false).1).2 = false →
        (search (mkSchedulerState k) k.loop_priority fuel [] none false).2 = false →
        (attachAll k (search (mkSchedulerState k) k.loop_priority fuel []
            none false).1).1 ≠ [] →
        generate_loop_schedules k fuel =
          ((attachAll k (search (mkSchedulerState k) k.loop_priority fuel []
              none false).1).1, none))
    ∧ (∀ (k : Kernel) (fuel : Nat),
        k.state = KState.preprocessed → preScheduleChecksOk k = true →
        (search (mkSchedulerState k) k.loop_priority fuel [] none false).1 = [] →
        (search (mkSchedulerState k) k.loop_priority fuel [] none false).2 = false →
        (attachAll k (search (mkSchedulerState k) k.loop_priority fuel []
            (some false) false).1).2 = false →
        (search (mkSchedulerState k) k.loop_priority fuel []
            (some false) false).2 = false →
        (attachAll k (search (mkSchedulerState k) k.loop_priority fuel []
            (some false) false).1).1 ≠ [] →
        generate_loop_schedules k fuel =
          ((attachAll k (search (mkSchedulerState k) k.loop_priority fuel []
              (some false) false).1).1, none))
    ∧ (∀ x : Kernel, consumeGen [x] none = Except.ok (some x, false))
    ∧ (∀ (x y : Kernel) (rest : List Kernel) (err : Option GlErr),
        consumeGen (x :: y :: rest) err = Except.ok (some x, true))
    ∧ (∀ (k : Kernel) (fuel : Nat),
        get_one_scheduled_kernel k fuel =
          consumeGen (generate_loop_schedules k fuel).1
            (generate_loop_schedules k fuel).2) := by
  refine ⟨?_, ?_, ?_, ?_, ?_⟩
  · intro k fuel hstate hchecks ha2 hr2 hne
    unfold generate_loop_schedules
    rw [if_neg (by simp [hstate])]
    rw [if_neg (by simp [hchecks])]
    rw [if_neg (by simp [ha2, hr2])]
    rw [if_pos hne]
  · intro k fuel hstate hchecks hr1empty hr1e ha2 hr2 hne
    unfold generate_loop_schedules
    rw [if_neg (by simp [hstate])]
    rw [if_neg (by simp [hchecks])]
    rw [if_neg (by simp [hr1empty, attachAll, hr1e])]
    rw [if_neg (by simp [hr1empty, attachAll])]
    unfold entrySecondSearch
    rw [if_neg (by simp [ha2, hr2])]
    rw [if_neg hne]
  · intro x
    rfl
  · intro x y rest err
    rfl
  · intro k fuel
    rfl

/-- Witness for C7 at `exKernelTwo` (the no-boost search yields). -/
theorem entry_prefers_unboosted_and_consumer_take_two_witness :
    generate_loop_schedules exKernelTwo 5 =
      ((attachAll exKernelTwo (search (mkSchedulerState exKernelTwo)
          exKernelTwo.loop_priority 5 [] none false).1).1, none) :=
  entry_prefers_unboosted_and_consumer_take_two.1 exKernelTwo 5
    (by decide) (by decide) (by decide) (by decide) (by decide)

end Loopy
